import Mathlib

/-!
# Verification of the tic-tac-toe engine (`src/tic-tac-toe.py`)

A shallow embedding of the game core: the board model, the outcome
evaluator `check_winner`, the alpha-beta `minimax` search, the move
selector `best_move`, and the Tk-level turn handling (`handle_click`,
`ai_move`, `start_ai_first`, `reset_game`).

Modelling conventions:
* Python cell strings `" "`, `"X"`, `"O"` become the inductive `Cell`.
* The mutable 3x3 list-of-lists board becomes a record of nine cells;
  `board[i][j]` reads become `Board.get`, writes become `Board.set`.
* Python's in-place mutate / recurse / undo discipline inside `minimax`
  and `best_move` is embedded by explicit state passing: the board is
  threaded through every operation, so the net effect of a call on the
  board is visible in its result (`minimax` returns the score, the
  board as it is when the call returns, and the trace of cells tried at
  the top-level node; `best_move` returns the move and the board).
* `math.inf` / `-math.inf` become the `posInf` / `negInf` points of the
  `EScore` type; all genuine scores are finite (`EScore.fin`).
* Recursion in `minimax` terminates because each recursive call fills an
  empty cell; the embedding uses an explicit fuel argument for
  structural recursion.  Fuel `9` is an upper bound on the recursion
  depth from any board, since each ply consumes one of the nine cells
  and a full board is terminal; top-level entry points pass fuel `9`.
* `random.choice` in `best_move` (taken only on the all-empty board) is
  modelled by an oracle parameter `pick` supplying the chosen position.
-/

namespace TicTacToe

/-- A cell of the 3x3 board: `"X"`, `"O"` or `" "` in the source. -/
inductive Cell where
  | X : Cell
  | O : Cell
  | E : Cell
deriving DecidableEq, Repr

instance : Fintype Cell :=
  ⟨⟨[Cell.X, Cell.O, Cell.E], by decide⟩, fun c => by cases c <;> decide⟩

/-- The 3x3 board (`board` in the source, a list of three rows). -/
structure Board where
  c00 : Cell
  c01 : Cell
  c02 : Cell
  c10 : Cell
  c11 : Cell
  c12 : Cell
  c20 : Cell
  c21 : Cell
  c22 : Cell
deriving DecidableEq, Repr

/-- `board[i][j]`. -/
def Board.get (b : Board) (i j : Fin 3) : Cell :=
  match i, j with
  | ⟨0, _⟩, ⟨0, _⟩ => b.c00
  | ⟨0, _⟩, ⟨1, _⟩ => b.c01
  | ⟨0, _⟩, ⟨2, _⟩ => b.c02
  | ⟨1, _⟩, ⟨0, _⟩ => b.c10
  | ⟨1, _⟩, ⟨1, _⟩ => b.c11
  | ⟨1, _⟩, ⟨2, _⟩ => b.c12
  | ⟨2, _⟩, ⟨0, _⟩ => b.c20
  | ⟨2, _⟩, ⟨1, _⟩ => b.c21
  | ⟨2, _⟩, ⟨2, _⟩ => b.c22

/-- `board[i][j] = v`. -/
def Board.set (b : Board) (i j : Fin 3) (v : Cell) : Board :=
  match i, j with
  | ⟨0, _⟩, ⟨0, _⟩ => { b with c00 := v }
  | ⟨0, _⟩, ⟨1, _⟩ => { b with c01 := v }
  | ⟨0, _⟩, ⟨2, _⟩ => { b with c02 := v }
  | ⟨1, _⟩, ⟨0, _⟩ => { b with c10 := v }
  | ⟨1, _⟩, ⟨1, _⟩ => { b with c11 := v }
  | ⟨1, _⟩, ⟨2, _⟩ => { b with c12 := v }
  | ⟨2, _⟩, ⟨0, _⟩ => { b with c20 := v }
  | ⟨2, _⟩, ⟨1, _⟩ => { b with c21 := v }
  | ⟨2, _⟩, ⟨2, _⟩ => { b with c22 := v }

/-- The all-blank board (`[[" ", " ", " "], ...]`). -/
def emptyBoard : Board :=
  ⟨Cell.E, Cell.E, Cell.E, Cell.E, Cell.E, Cell.E, Cell.E, Cell.E, Cell.E⟩

/-- First component of `check_winner`'s result: `None`, `"X"`, `"O"` or
`"Draw"` in the source; `player c` carries the winning symbol. -/
inductive Winner where
  | player : Cell → Winner
  | draw : Winner
deriving DecidableEq, Repr

/-- The chained comparison `a == b == c and a != " "` used by each of the
eight line checks in `check_winner`. -/
def same3 (a b c : Cell) : Bool :=
  a == b && b == c && a != Cell.E

/-- `" " in row` for row `i`. -/
def rowHasBlank (b : Board) (i : Fin 3) : Bool :=
  b.get i 0 == Cell.E || b.get i 1 == Cell.E || b.get i 2 == Cell.E

/-- `any(" " in row for row in board)`: the source's ongoing-game scan. -/
def hasBlank (b : Board) : Bool :=
  rowHasBlank b 0 || rowHasBlank b 1 || rowHasBlank b 2

/-- `check_winner(board)` (source lines 5-32): the loop
`for i in range(3)` checks row `i` then column `i`; then the two
diagonals; then the blank scan; else draw.  The loop is unrolled since
`range(3)` is a literal. -/
def check_winner (b : Board) : Option Winner × List (Fin 3 × Fin 3) :=
  if same3 (b.get 0 0) (b.get 0 1) (b.get 0 2) then
    (some (.player (b.get 0 0)), [(0, 0), (0, 1), (0, 2)])
  else if same3 (b.get 0 0) (b.get 1 0) (b.get 2 0) then
    (some (.player (b.get 0 0)), [(0, 0), (1, 0), (2, 0)])
  else if same3 (b.get 1 0) (b.get 1 1) (b.get 1 2) then
    (some (.player (b.get 1 0)), [(1, 0), (1, 1), (1, 2)])
  else if same3 (b.get 0 1) (b.get 1 1) (b.get 2 1) then
    (some (.player (b.get 0 1)), [(0, 1), (1, 1), (2, 1)])
  else if same3 (b.get 2 0) (b.get 2 1) (b.get 2 2) then
    (some (.player (b.get 2 0)), [(2, 0), (2, 1), (2, 2)])
  else if same3 (b.get 0 2) (b.get 1 2) (b.get 2 2) then
    (some (.player (b.get 0 2)), [(0, 2), (1, 2), (2, 2)])
  else if same3 (b.get 0 0) (b.get 1 1) (b.get 2 2) then
    (some (.player (b.get 0 0)), [(0, 0), (1, 1), (2, 2)])
  else if same3 (b.get 0 2) (b.get 1 1) (b.get 2 0) then
    (some (.player (b.get 0 2)), [(0, 2), (1, 1), (2, 0)])
  else if hasBlank b then
    (none, [])
  else
    (some .draw, [])

/-- Scores: the integers `10 - depth`, `-10 + depth`, `0` together with
`math.inf` and `-math.inf`, which appear as initial values of
`best_score`, `alpha` and `beta`. -/
inductive EScore where
  | negInf : EScore
  | fin : Int → EScore
  | posInf : EScore
deriving DecidableEq, Repr

namespace EScore

/-- `a <= b` on scores. -/
def ble : EScore → EScore → Bool
  | negInf, _ => true
  | fin _, negInf => false
  | fin a, fin b => a ≤ b
  | fin _, posInf => true
  | posInf, posInf => true
  | posInf, _ => false

/-- `a < b` on scores. -/
def blt : EScore → EScore → Bool
  | negInf, negInf => false
  | negInf, _ => true
  | fin _, negInf => false
  | fin a, fin b => a < b
  | fin _, posInf => true
  | posInf, _ => false

/-- Python `max(a, b)` (returns `a` when equal; indistinguishable here). -/
def max (a b : EScore) : EScore :=
  if ble b a then a else b

/-- Python `min(a, b)`. -/
def min (a b : EScore) : EScore :=
  if ble a b then a else b

end EScore

end TicTacToe

namespace TicTacToe

/-- Events at one `minimax` node: `placed i j` records the simulation
`board[i][j] = sym` for cell `(i, j)`; `pruned i j` records the
`break` taken right after cell `(i, j)` was scored. -/
inductive PruneEv where
  | placed : Fin 3 → Fin 3 → PruneEv
  | pruned : Fin 3 → Fin 3 → PruneEv
deriving DecidableEq, Repr

/-- One iteration of the inner `for j` loop of `minimax` (source lines
66-73 maximizing, 79-86 minimizing; the two symmetric branches are
embedded once, parameterized by `isMax`).  The state is
`(best_score, moving bound, board)` where the moving bound is `alpha`
when maximizing and `beta` when minimizing, and `fixed` is the other
bound.  Returns the new state, the events of this iteration, and
whether `break` was executed. -/
def stepAB (mm : Board → EScore → EScore → EScore × Board × List PruneEv)
    (isMax : Bool) (fixed : EScore) (i j : Fin 3) (st : EScore × EScore × Board) :
    (EScore × EScore × Board) × List PruneEv × Bool :=
  let best := st.1
  let mv := st.2.1
  let bd := st.2.2
  if bd.get i j = Cell.E then
    let sym := if isMax then Cell.O else Cell.X
    let r := if isMax then mm (bd.set i j sym) mv fixed else mm (bd.set i j sym) fixed mv
    let score := r.1
    let bd2 := (r.2.1).set i j Cell.E
    let best2 := if isMax then EScore.max best score else EScore.min best score
    let mv2 := if isMax then EScore.max mv score else EScore.min mv score
    let prune := if isMax then EScore.ble fixed mv2 else EScore.ble mv2 fixed
    ((best2, mv2, bd2), .placed i j :: (if prune then [.pruned i j] else []), prune)
  else
    (st, [], false)

/-- The inner `for j in range(3)` loop for row `i`: up to three
iterations, stopping at the first `break`.  Only the inner loop stops:
the caller goes on with the next row, exactly as Python's `break` does. -/
def rowAB (mm : Board → EScore → EScore → EScore × Board × List PruneEv)
    (isMax : Bool) (fixed : EScore) (i : Fin 3) (st : EScore × EScore × Board) :
    (EScore × EScore × Board) × List PruneEv :=
  let r0 := stepAB mm isMax fixed i 0 st
  if r0.2.2 then (r0.1, r0.2.1)
  else
    let r1 := stepAB mm isMax fixed i 1 r0.1
    if r1.2.2 then (r1.1, r0.2.1 ++ r1.2.1)
    else
      let r2 := stepAB mm isMax fixed i 2 r1.1
      (r2.1, r0.2.1 ++ r1.2.1 ++ r2.2.1)

/-- `minimax(board, depth, is_maximizing, alpha, beta)` (source lines
43-87), with the board threaded explicitly and the events of the
top-level node recorded.  Returns `(score, board on return, events)`.
The terminal check runs before anything else, exactly as in the source;
`fuel` only bounds the recursion (fuel `9` suffices from any board). -/
def minimax : Nat → Board → Nat → Bool → EScore → EScore → EScore × Board × List PruneEv
  | 0, b, depth, is_maximizing, _, _ =>
    let w := (check_winner b).1
    if w = some (.player Cell.X) then (.fin (-10 + (depth : Int)), b, [])
    else if w = some (.player Cell.O) then (.fin (10 - (depth : Int)), b, [])
    else if w = some .draw then (.fin 0, b, [])
    else ((if is_maximizing then .negInf else .posInf), b, [])
  | f' + 1, b, depth, is_maximizing, alpha, beta =>
    let w := (check_winner b).1
    if w = some (.player Cell.X) then (.fin (-10 + (depth : Int)), b, [])
    else if w = some (.player Cell.O) then (.fin (10 - (depth : Int)), b, [])
    else if w = some .draw then (.fin 0, b, [])
    else
      let mm := fun b' a' b'' => minimax f' b' (depth + 1) (!is_maximizing) a' b''
      let fixed := if is_maximizing then beta else alpha
      let init : EScore × EScore × Board :=
        ((if is_maximizing then EScore.negInf else EScore.posInf),
         (if is_maximizing then alpha else beta), b)
      let r0 := rowAB mm is_maximizing fixed 0 init
      let r1 := rowAB mm is_maximizing fixed 1 r0.1
      let r2 := rowAB mm is_maximizing fixed 2 r1.1
      (r2.1.1, r2.1.2.2, r0.2 ++ r1.2 ++ r2.2)

/-- Score-only twin of `stepAB` (the node board `b` is a parameter since
the threaded board is restored after every iteration). -/
def stepABP (mm : Board → EScore → EScore → EScore) (isMax : Bool) (fixed : EScore)
    (b : Board) (i j : Fin 3) (st : EScore × EScore) : (EScore × EScore) × Bool :=
  if b.get i j = Cell.E then
    let sym := if isMax then Cell.O else Cell.X
    let score := if isMax then mm (b.set i j sym) st.2 fixed else mm (b.set i j sym) fixed st.2
    let best2 := if isMax then EScore.max st.1 score else EScore.min st.1 score
    let mv2 := if isMax then EScore.max st.2 score else EScore.min st.2 score
    ((best2, mv2), if isMax then EScore.ble fixed mv2 else EScore.ble mv2 fixed)
  else
    (st, false)

/-- Score-only twin of `rowAB`. -/
def rowABP (mm : Board → EScore → EScore → EScore) (isMax : Bool) (fixed : EScore)
    (b : Board) (i : Fin 3) (st : EScore × EScore) : EScore × EScore :=
  let r0 := stepABP mm isMax fixed b i 0 st
  if r0.2 then r0.1
  else
    let r1 := stepABP mm isMax fixed b i 1 r0.1
    if r1.2 then r1.1
    else (stepABP mm isMax fixed b i 2 r1.1).1

/-- Score-only twin of `minimax`, used for evaluation; `minimax_eq_P`
proves it agrees with `minimax` (and that `minimax` restores the board). -/
def minimaxP : Nat → Board → Nat → Bool → EScore → EScore → EScore
  | 0, b, depth, is_maximizing, _, _ =>
    let w := (check_winner b).1
    if w = some (.player Cell.X) then .fin (-10 + (depth : Int))
    else if w = some (.player Cell.O) then .fin (10 - (depth : Int))
    else if w = some .draw then .fin 0
    else if is_maximizing then .negInf else .posInf
  | f' + 1, b, depth, is_maximizing, alpha, beta =>
    let w := (check_winner b).1
    if w = some (.player Cell.X) then .fin (-10 + (depth : Int))
    else if w = some (.player Cell.O) then .fin (10 - (depth : Int))
    else if w = some .draw then .fin 0
    else
      let mm := fun b' a' b'' => minimaxP f' b' (depth + 1) (!is_maximizing) a' b''
      let fixed := if is_maximizing then beta else alpha
      let init : EScore × EScore :=
        ((if is_maximizing then EScore.negInf else EScore.posInf),
         (if is_maximizing then alpha else beta))
      (rowABP mm is_maximizing fixed b 2
        (rowABP mm is_maximizing fixed b 1
          (rowABP mm is_maximizing fixed b 0 init))).1

/-- The nine positions in row-major order: the iteration order of
`for i in range(3): for j in range(3)`, and also the list
`empty_positions` built for the random opening move. -/
def allPositions : List (Fin 3 × Fin 3) :=
  [(0, 0), (0, 1), (0, 2), (1, 0), (1, 1), (1, 2), (2, 0), (2, 1), (2, 2)]

/-- `all(cell == " " for row in board for cell in row)`. -/
def allBlank (b : Board) : Bool :=
  allPositions.all fun p => b.get p.1 p.2 == Cell.E

/-- The candidate loop of `best_move` (source lines 103-111), with the
board threaded; state is `(best_score, move, board)`.  No `break` here. -/
def bmLoop : List (Fin 3 × Fin 3) → EScore × Option (Fin 3 × Fin 3) × Board →
    EScore × Option (Fin 3 × Fin 3) × Board
  | [], st => st
  | p :: ps, st =>
    let best := st.1
    let mv := st.2.1
    let bd := st.2.2
    if bd.get p.1 p.2 = Cell.E then
      let r := minimax 9 (bd.set p.1 p.2 Cell.O) 0 false .negInf .posInf
      let bd2 := (r.2.1).set p.1 p.2 Cell.E
      if EScore.blt best r.1 then bmLoop ps (r.1, some p, bd2)
      else bmLoop ps (best, mv, bd2)
    else bmLoop ps st

/-- `best_move(board)` (source lines 89-112).  On the all-blank board the
source returns `random.choice(empty_positions)`; the random draw is
modelled by the oracle `pick` applied to that list.  Returns the move
(`None` when no empty cell improves on `-inf`... i.e. when the board is
full) together with the board as it is when the call returns. -/
def best_move (pick : List (Fin 3 × Fin 3) → Fin 3 × Fin 3) (b : Board) :
    Option (Fin 3 × Fin 3) × Board :=
  if allBlank b then (some (pick allPositions), b)
  else
    let r := bmLoop allPositions (.negInf, none, b)
    (r.2.1, r.2.2)

/-- Score of candidate cell `p` at the top of `best_move`:
`minimax(board after O at p, 0, False, -inf, inf)`. -/
def candScore (b : Board) (p : Fin 3 × Fin 3) : EScore :=
  minimaxP 9 (b.set p.1 p.2 Cell.O) 0 false .negInf .posInf

/-- Score-only twin of `bmLoop`. -/
def bmLoopP (b : Board) : List (Fin 3 × Fin 3) → EScore × Option (Fin 3 × Fin 3) →
    EScore × Option (Fin 3 × Fin 3)
  | [], st => st
  | p :: ps, st =>
    if b.get p.1 p.2 = Cell.E then
      if EScore.blt st.1 (candScore b p) then bmLoopP b ps (candScore b p, some p)
      else bmLoopP b ps st
    else bmLoopP b ps st

/-- The deterministic search branch of `best_move` (the behaviour on any
board that is not all-blank). -/
def bestMoveSearch (b : Board) : Option (Fin 3 × Fin 3) :=
  (bmLoopP b allPositions (.negInf, none)).2

end TicTacToe

namespace TicTacToe

/-! ## Board update lemmas -/

theorem get_set (b : Board) (i j : Fin 3) (v : Cell) : (b.set i j v).get i j = v := by
  cases b
  fin_cases i <;> fin_cases j <;> rfl

theorem set_set (b : Board) (i j : Fin 3) (v w : Cell) :
    (b.set i j v).set i j w = b.set i j w := by
  cases b
  fin_cases i <;> fin_cases j <;> rfl

theorem set_own (b : Board) (i j : Fin 3) (h : b.get i j = Cell.E) :
    b.set i j Cell.E = b := by
  cases b
  fin_cases i <;> fin_cases j <;> simp_all [Board.get, Board.set]

/-! ## The threaded `minimax` agrees with its score-only twin and
restores the board. -/

theorem stepAB_eq (mmS : Board → EScore → EScore → EScore × Board × List PruneEv)
    (mmP : Board → EScore → EScore → EScore)
    (hmm : ∀ b a t, (mmS b a t).1 = mmP b a t ∧ (mmS b a t).2.1 = b)
    (isMax : Bool) (fixed : EScore) (i j : Fin 3) (st : EScore × EScore) (b : Board) :
    (stepAB mmS isMax fixed i j (st.1, st.2, b)).1 =
      ((stepABP mmP isMax fixed b i j st).1.1,
       (stepABP mmP isMax fixed b i j st).1.2, b) ∧
    (stepAB mmS isMax fixed i j (st.1, st.2, b)).2.2 =
      (stepABP mmP isMax fixed b i j st).2 := by
  obtain ⟨best, mv⟩ := st
  unfold stepAB stepABP
  by_cases h : b.get i j = Cell.E
  · obtain ⟨h1, h2⟩ := hmm (b.set i j (if isMax then Cell.O else Cell.X))
      (if isMax then mv else fixed) (if isMax then fixed else mv)
    cases isMax <;> simp_all [h, set_set, set_own]
  · simp [h]

theorem rowAB_eq (mmS : Board → EScore → EScore → EScore × Board × List PruneEv)
    (mmP : Board → EScore → EScore → EScore)
    (hmm : ∀ b a t, (mmS b a t).1 = mmP b a t ∧ (mmS b a t).2.1 = b)
    (isMax : Bool) (fixed : EScore) (i : Fin 3) (st : EScore × EScore) (b : Board) :
    (rowAB mmS isMax fixed i (st.1, st.2, b)).1 =
      ((rowABP mmP isMax fixed b i st).1,
       (rowABP mmP isMax fixed b i st).2, b) := by
  obtain ⟨e0, f0⟩ := stepAB_eq mmS mmP hmm isMax fixed i 0 st b
  unfold rowAB rowABP
  simp only [e0, f0]
  by_cases h0 : (stepABP mmP isMax fixed b i 0 st).2
  · simp [h0]
  · simp only [h0, Bool.false_eq_true, if_false]
    obtain ⟨e1, f1⟩ := stepAB_eq mmS mmP hmm isMax fixed i 1
      (stepABP mmP isMax fixed b i 0 st).1 b
    simp only [e1, f1]
    by_cases h1 : (stepABP mmP isMax fixed b i 1 (stepABP mmP isMax fixed b i 0 st).1).2
    · simp [h1]
    · simp only [h1, Bool.false_eq_true, if_false]
      obtain ⟨e2, _⟩ := stepAB_eq mmS mmP hmm isMax fixed i 2
        (stepABP mmP isMax fixed b i 1 (stepABP mmP isMax fixed b i 0 st).1).1 b
      simp only [e2]

end TicTacToe

namespace TicTacToe

theorem minimax_eq : ∀ (f : Nat) (b : Board) (d : Nat) (m : Bool) (a t : EScore),
    (minimax f b d m a t).1 = minimaxP f b d m a t ∧ (minimax f b d m a t).2.1 = b := by
  intro f
  induction f with
  | zero =>
    intro b d m a t
    unfold minimax minimaxP
    dsimp only
    split_ifs <;> exact ⟨rfl, rfl⟩
  | succ f ih =>
    intro b d m a t
    cases m
    case false =>
      have hmm : ∀ b' a' t', ((fun b' a' b'' => minimax f b' (d + 1) true a' b'') b' a' t').1 =
          (fun b' a' b'' => minimaxP f b' (d + 1) true a' b'') b' a' t' ∧
          ((fun b' a' b'' => minimax f b' (d + 1) true a' b'') b' a' t').2.1 = b' :=
        fun b' a' t' => ih b' (d + 1) true a' t'
      unfold minimax minimaxP
      simp only [Bool.not_false, reduceIte]
      split_ifs <;> try exact ⟨rfl, rfl⟩
      all_goals try contradiction
      have e0 := rowAB_eq _ _ hmm false a 0 (EScore.posInf, t) b
      dsimp only at e0
      rw [e0]
      have e1 := rowAB_eq _ _ hmm false a 1
        (rowABP (fun b' a' b'' => minimaxP f b' (d + 1) true a' b'') false a b 0
          (EScore.posInf, t)) b
      rw [e1]
      have e2 := rowAB_eq _ _ hmm false a 2
        (rowABP (fun b' a' b'' => minimaxP f b' (d + 1) true a' b'') false a b 1
          (rowABP (fun b' a' b'' => minimaxP f b' (d + 1) true a' b'') false a b 0
            (EScore.posInf, t))) b
      rw [e2]
      exact ⟨rfl, rfl⟩
    case true =>
      have hmm : ∀ b' a' t', ((fun b' a' b'' => minimax f b' (d + 1) false a' b'') b' a' t').1 =
          (fun b' a' b'' => minimaxP f b' (d + 1) false a' b'') b' a' t' ∧
          ((fun b' a' b'' => minimax f b' (d + 1) false a' b'') b' a' t').2.1 = b' :=
        fun b' a' t' => ih b' (d + 1) false a' t'
      unfold minimax minimaxP
      simp only [Bool.not_true, reduceIte]
      split_ifs <;> try exact ⟨rfl, rfl⟩
      have e0 := rowAB_eq _ _ hmm true t 0 (EScore.negInf, a) b
      dsimp only at e0
      rw [e0]
      have e1 := rowAB_eq _ _ hmm true t 1
        (rowABP (fun b' a' b'' => minimaxP f b' (d + 1) false a' b'') true t b 0
          (EScore.negInf, a)) b
      rw [e1]
      have e2 := rowAB_eq _ _ hmm true t 2
        (rowABP (fun b' a' b'' => minimaxP f b' (d + 1) false a' b'') true t b 1
          (rowABP (fun b' a' b'' => minimaxP f b' (d + 1) false a' b'') true t b 0
            (EScore.negInf, a))) b
      rw [e2]
      exact ⟨rfl, rfl⟩

end TicTacToe

namespace TicTacToe

theorem bmLoop_eq : ∀ (ps : List (Fin 3 × Fin 3)) (st : EScore × Option (Fin 3 × Fin 3))
    (b : Board), bmLoop ps (st.1, st.2, b) = ((bmLoopP b ps st).1, (bmLoopP b ps st).2, b) := by
  intro ps
  induction ps with
  | nil => intro st b; rfl
  | cons p ps ih =>
    intro st b
    obtain ⟨best, mv⟩ := st
    obtain ⟨h1, h2⟩ := minimax_eq 9 (b.set p.1 p.2 Cell.O) 0 false .negInf .posInf
    have hset : ((minimax 9 (b.set p.1 p.2 Cell.O) 0 false .negInf .posInf).2.1).set
        p.1 p.2 Cell.E = b.set p.1 p.2 Cell.E := by rw [h2, set_set]
    unfold bmLoop bmLoopP candScore
    by_cases h : b.get p.1 p.2 = Cell.E
    · simp only [h, if_true, hset, set_own b p.1 p.2 h, h1]
      cases hblt : EScore.blt best (minimaxP 9 (b.set p.1 p.2 Cell.O) 0 false .negInf .posInf)
      · have := ih (best, mv) b
        simpa using this
      · have := ih (minimaxP 9 (b.set p.1 p.2 Cell.O) 0 false .negInf .posInf, some p) b
        simpa using this
    · simp only [h, if_false]
      have := ih (best, mv) b
      simpa using this

theorem best_move_eq (pick : List (Fin 3 × Fin 3) → Fin 3 × Fin 3) (b : Board) :
    best_move pick b =
      ((if allBlank b then some (pick allPositions) else bestMoveSearch b), b) := by
  unfold best_move bestMoveSearch
  by_cases h : allBlank b
  · simp [h]
  · have := bmLoop_eq allPositions (.negInf, none) b
    simp only [h, Bool.false_eq_true, if_false] at this ⊢
    rw [this]

/-- C2: after any call to `minimax` (for every fuel, depth, maximizing
flag and alpha/beta window) and after any call to `best_move`, the board
component of the result is cell-for-cell the board that was passed in:
the simulate/undo discipline leaks no mutation, on pruning paths included
(the pruning `break` is modelled inside `rowAB`, so this statement covers
every pruning early-exit). -/
theorem c2_board_restored :
    ∀ (f : Nat) (b : Board) (d : Nat) (m : Bool) (a t : EScore)
      (pick : List (Fin 3 × Fin 3) → Fin 3 × Fin 3),
      (minimax f b d m a t).2.1 = b ∧ (best_move pick b).2 = b := by
  intro f b d m a t pick
  refine ⟨(minimax_eq f b d m a t).2, ?_⟩
  rw [best_move_eq]

end TicTacToe

namespace TicTacToe

/-- Board with X completing row 0: `check_winner` reports X. -/
def bC3X : Board :=
  ⟨Cell.X, Cell.X, Cell.X, Cell.E, Cell.E, Cell.E, Cell.E, Cell.E, Cell.O⟩

/-- Board with O completing row 0: `check_winner` reports O. -/
def bC3O : Board :=
  ⟨Cell.O, Cell.O, Cell.O, Cell.X, Cell.X, Cell.E, Cell.E, Cell.E, Cell.X⟩

/-- Full board with no line: `check_winner` reports a draw. -/
def bC3D : Board :=
  ⟨Cell.X, Cell.O, Cell.X, Cell.X, Cell.O, Cell.O, Cell.O, Cell.X, Cell.X⟩

/-- C3: for every board, fuel, depth, maximizing flag and window, when
`check_winner` reports a win for X (the minimizing human side) `minimax`
returns `-10 + depth`; a win for O (the maximizing machine side) returns
`10 - depth`; a draw returns `0`.  The statement holds for every fuel,
fuel `0` included, because the terminal check is performed before the
recursion is ever consulted — exactly as the source checks `check_winner`
at the top of every call. -/
theorem c3_terminal_scores :
    ∀ (f : Nat) (b : Board) (d : Nat) (m : Bool) (a t : EScore),
      ((check_winner b).1 = some (.player Cell.X) →
        minimax f b d m a t = (.fin (-10 + (d : Int)), b, [])) ∧
      ((check_winner b).1 = some (.player Cell.O) →
        minimax f b d m a t = (.fin (10 - (d : Int)), b, [])) ∧
      ((check_winner b).1 = some .draw →
        minimax f b d m a t = (.fin 0, b, [])) := by
  intro f b d m a t
  refine ⟨?_, ?_, ?_⟩ <;> intro h <;> cases f <;> (unfold minimax; simp [h])

/-- Witness for `c3_terminal_scores`: concrete terminal boards for the
three cases, with depths 3, 2 and 5. -/
theorem c3_terminal_scores_witness :
    ((check_winner bC3X).1 = some (.player Cell.X) ∧
      minimax 9 bC3X 3 true .negInf .posInf = (.fin (-10 + ((3 : Nat) : Int)), bC3X, [])) ∧
    ((check_winner bC3O).1 = some (.player Cell.O) ∧
      minimax 4 bC3O 2 false .negInf .posInf = (.fin (10 - ((2 : Nat) : Int)), bC3O, [])) ∧
    ((check_winner bC3D).1 = some .draw ∧
      minimax 0 bC3D 5 true .posInf .negInf = (.fin 0, bC3D, [])) :=
  ⟨⟨by decide, (c3_terminal_scores 9 bC3X 3 true .negInf .posInf).1 (by decide)⟩,
   ⟨by decide, (c3_terminal_scores 4 bC3O 2 false .negInf .posInf).2.1 (by decide)⟩,
   ⟨by decide, (c3_terminal_scores 0 bC3D 5 true .posInf .negInf).2.2 (by decide)⟩⟩

end TicTacToe

namespace TicTacToe

/-! ## C1: the outcome evaluator against the claim's description -/

/-- The 8 winning lines in the claim's fixed scan order: row 0, column 0,
row 1, column 1, row 2, column 2, main diagonal, anti-diagonal. -/
def scanOrder : List ((Fin 3 × Fin 3) × (Fin 3 × Fin 3) × (Fin 3 × Fin 3)) :=
  [((0, 0), (0, 1), (0, 2)), ((0, 0), (1, 0), (2, 0)),
   ((1, 0), (1, 1), (1, 2)), ((0, 1), (1, 1), (2, 1)),
   ((2, 0), (2, 1), (2, 2)), ((0, 2), (1, 2), (2, 2)),
   ((0, 0), (1, 1), (2, 2)), ((0, 2), (1, 1), (2, 0))]

/-- A line qualifies when its 3 cells are equal and non-Empty. -/
def winsLine (b : Board) (l : (Fin 3 × Fin 3) × (Fin 3 × Fin 3) × (Fin 3 × Fin 3)) : Bool :=
  b.get l.1.1 l.1.2 == b.get l.2.1.1 l.2.1.2 &&
  b.get l.2.1.1 l.2.1.2 == b.get l.2.2.1 l.2.2.2 &&
  b.get l.1.1 l.1.2 != Cell.E

/-- Modelled from the claim's words: return `Win(symbol, line)` for the
first qualifying line of `scanOrder`; if no line qualifies, `InProgress`
(i.e. `(None, [])`) when some cell is Empty, else `Draw`. -/
def checkWinnerSpec (b : Board) : Option Winner × List (Fin 3 × Fin 3) :=
  match scanOrder.find? (fun l => winsLine b l) with
  | some l => (some (.player (b.get l.1.1 l.1.2)), [l.1, l.2.1, l.2.2])
  | none => if ∃ i j, b.get i j = Cell.E then (none, []) else (some .draw, [])

theorem hasBlank_iff (b : Board) : hasBlank b = true ↔ ∃ i j, b.get i j = Cell.E := by
  constructor
  · intro h
    by_contra hc
    push_neg at hc
    have h1 := hc 0 0
    have h2 := hc 0 1
    have h3 := hc 0 2
    have h4 := hc 1 0
    have h5 := hc 1 1
    have h6 := hc 1 2
    have h7 := hc 2 0
    have h8 := hc 2 1
    have h9 := hc 2 2
    unfold hasBlank rowHasBlank at h
    simp [beq_iff_eq, h1, h2, h3, h4, h5, h6, h7, h8, h9] at h
  · rintro ⟨i, j, h⟩
    unfold hasBlank rowHasBlank
    fin_cases i <;> fin_cases j <;> simp_all

end TicTacToe

namespace TicTacToe

set_option maxHeartbeats 2000000 in
/-- C1: `check_winner` returns `Win(s, line)` exactly when at least one of
the 8 winning lines has 3 equal non-Empty cells, and the line returned is
the first qualifying line in the fixed scan order (row 0, column 0, row 1,
column 1, row 2, column 2, main diagonal, anti-diagonal); with no winning
line it returns `InProgress` exactly when some cell is Empty, and `Draw`
exactly when every cell is non-Empty — i.e. it coincides with the
specification function `checkWinnerSpec` on every board. -/
theorem c1_check_winner_correct : ∀ b : Board, check_winner b = checkWinnerSpec b := by
  intro b
  unfold check_winner checkWinnerSpec scanOrder winsLine same3
  simp only [List.find?]
  split_ifs <;> simp_all only [Bool.not_eq_true, hasBlank_iff, not_true]

end TicTacToe

namespace TicTacToe

/-! ## C4: what pruning actually stops -/

/-- Row of the cell an event refers to. -/
def PruneEv.row : PruneEv → Fin 3
  | .placed i _ => i
  | .pruned i _ => i

/-- The claim's reading of a node trace: once a `pruned` event occurs, no
cell is tried afterwards at that node. -/
def noPlacedAfterPruned : List PruneEv → Bool
  | [] => true
  | .pruned _ _ :: rest => rest.all fun e =>
      match e with
      | .placed _ _ => false
      | .pruned _ _ => true
  | .placed _ _ :: rest => noPlacedAfterPruned rest

/-- What the code actually guarantees: every event after a `pruned` event
concerns a strictly later row. -/
def rowsAfterPrunedIncrease : List PruneEv → Bool
  | [] => true
  | .placed _ _ :: rest => rowsAfterPrunedIncrease rest
  | .pruned i _ :: rest =>
      (rest.all fun e => decide (i < e.row)) && rowsAfterPrunedIncrease rest

/-- A `pruned` event, if any, only closes a row trace. -/
def prunedLast : List PruneEv → Bool
  | [] => true
  | [.pruned _ _] => true
  | .pruned _ _ :: _ :: _ => false
  | .placed _ _ :: rest => prunedLast rest

/-- Board refuting C4: O to move (maximizing), row 0 holds two empty
cells and `(2,2)` is empty; with window `beta = 0` the first tried cell
`(0,0)` wins for O, the prune condition fires, and yet `(2,2)` in row 2
is still tried afterwards, because `break` leaves only the inner loop. -/
def bC4 : Board :=
  ⟨Cell.E, Cell.E, Cell.X, Cell.O, Cell.X, Cell.X, Cell.O, Cell.O, Cell.E⟩

theorem stepAB_shapes (mm : Board → EScore → EScore → EScore × Board × List PruneEv)
    (isMax : Bool) (fixed : EScore) (i j : Fin 3) (st : EScore × EScore × Board) :
    ((stepAB mm isMax fixed i j st).2.1 = [] ∧ (stepAB mm isMax fixed i j st).2.2 = false) ∨
    ((stepAB mm isMax fixed i j st).2.1 = [.placed i j] ∧
      (stepAB mm isMax fixed i j st).2.2 = false) ∨
    ((stepAB mm isMax fixed i j st).2.1 = [.placed i j, .pruned i j] ∧
      (stepAB mm isMax fixed i j st).2.2 = true) := by
  obtain ⟨best, mv, bd⟩ := st
  unfold stepAB
  by_cases h : bd.get i j = Cell.E
  · simp only [h, if_true]
    cases hpr : (if isMax then
        EScore.ble fixed (if isMax then EScore.max mv
          (if isMax then mm (bd.set i j (if isMax then Cell.O else Cell.X)) mv fixed
            else mm (bd.set i j (if isMax then Cell.O else Cell.X)) fixed mv).1
          else EScore.min mv
          (if isMax then mm (bd.set i j (if isMax then Cell.O else Cell.X)) mv fixed
            else mm (bd.set i j (if isMax then Cell.O else Cell.X)) fixed mv).1)
      else EScore.ble (if isMax then EScore.max mv
          (if isMax then mm (bd.set i j (if isMax then Cell.O else Cell.X)) mv fixed
            else mm (bd.set i j (if isMax then Cell.O else Cell.X)) fixed mv).1
          else EScore.min mv
          (if isMax then mm (bd.set i j (if isMax then Cell.O else Cell.X)) mv fixed
            else mm (bd.set i j (if isMax then Cell.O else Cell.X)) fixed mv).1) fixed) <;>
      simp [hpr]
  · simp [h]

end TicTacToe

namespace TicTacToe

theorem rowAB_events (mm : Board → EScore → EScore → EScore × Board × List PruneEv)
    (isMax : Bool) (fixed : EScore) (i : Fin 3) (st : EScore × EScore × Board) :
    (∀ x ∈ (rowAB mm isMax fixed i st).2, x.row = i) ∧
    prunedLast ((rowAB mm isMax fixed i st).2) = true := by
  unfold rowAB
  rcases stepAB_shapes mm isMax fixed i 0 st with ⟨e0, f0⟩ | ⟨e0, f0⟩ | ⟨e0, f0⟩ <;>
    simp only [e0, f0, Bool.false_eq_true, if_false, if_true]
  case inr.inr => exact ⟨by simp [PruneEv.row], by simp [prunedLast]⟩
  all_goals
    rcases stepAB_shapes mm isMax fixed i 1 (stepAB mm isMax fixed i 0 st).1 with
        ⟨e1, f1⟩ | ⟨e1, f1⟩ | ⟨e1, f1⟩ <;>
      simp only [e1, f1, Bool.false_eq_true, if_false, if_true] <;>
    [skip; skip; exact ⟨by simp [PruneEv.row], by simp [prunedLast]⟩] <;>
    rcases stepAB_shapes mm isMax fixed i 2
        (stepAB mm isMax fixed i 1 (stepAB mm isMax fixed i 0 st).1).1 with
        ⟨e2, _⟩ | ⟨e2, _⟩ | ⟨e2, _⟩ <;>
      simp only [e2] <;>
    exact ⟨by simp [PruneEv.row], by simp [prunedLast]⟩

theorem rap_append (e rest : List PruneEv) (k : Fin 3)
    (hrow : ∀ x ∈ e, x.row = k) (hlast : prunedLast e = true)
    (hrest : ∀ x ∈ rest, k < x.row)
    (hP : rowsAfterPrunedIncrease rest = true) :
    rowsAfterPrunedIncrease (e ++ rest) = true := by
  induction e with
  | nil => simpa
  | cons a e ih =>
    cases a with
    | placed i j =>
      simp only [List.cons_append, rowsAfterPrunedIncrease]
      exact ih (fun x hx => hrow x (by simp [hx])) (by simpa [prunedLast] using hlast)
    | pruned i j =>
      cases e with
      | nil =>
        have hi : (PruneEv.pruned i j).row = k := hrow _ (by simp)
        simp only [List.nil_append, List.cons_append, rowsAfterPrunedIncrease,
          Bool.and_eq_true, List.all_eq_true]
        refine ⟨fun x hx => ?_, hP⟩
        have := hrest x hx
        simp only [PruneEv.row] at hi
        rw [decide_eq_true_eq, hi]
        exact this
      | cons b e' => simp [prunedLast] at hlast

end TicTacToe

namespace TicTacToe

theorem rap_single (e : List PruneEv) (k : Fin 3)
    (hrow : ∀ x ∈ e, x.row = k) (hlast : prunedLast e = true) :
    rowsAfterPrunedIncrease e = true := by
  have := rap_append e [] k hrow hlast (by simp) rfl
  simpa using this

/-- C4 (amended): pruning stops only the inner column loop.  Once the
pruning condition fires, the cell just tried is restored and no further
cell of the same row is tried, but the outer row loop continues: every
cell tried after a prune event lies in a strictly later row.  (The trace
records the top-level node's events; `rowsAfterPrunedIncrease` states the
strict row increase after every prune, and the second conjunct is the
restore.) -/
theorem c4_prune_stops_row_only :
    ∀ (f : Nat) (b : Board) (d : Nat) (m : Bool) (a t : EScore),
      rowsAfterPrunedIncrease ((minimax f b d m a t).2.2) = true ∧
      (minimax f b d m a t).2.1 = b := by
  intro f b d m a t
  refine ⟨?_, (minimax_eq f b d m a t).2⟩
  cases f with
  | zero =>
    unfold minimax
    dsimp only
    split_ifs <;> rfl
  | succ f =>
    cases m
    case false =>
      unfold minimax
      simp only [Bool.not_false, reduceIte]
      split_ifs <;> try rfl
      all_goals try contradiction
      rw [List.append_assoc]
      obtain ⟨hr0, hl0⟩ := rowAB_events
        (fun b' a' b'' => minimax f b' (d + 1) true a' b'') false a 0 (EScore.posInf, t, b)
      obtain ⟨hr1, hl1⟩ := rowAB_events
        (fun b' a' b'' => minimax f b' (d + 1) true a' b'') false a 1 _
      obtain ⟨hr2, hl2⟩ := rowAB_events
        (fun b' a' b'' => minimax f b' (d + 1) true a' b'') false a 2 _
      refine rap_append _ _ 0 hr0 hl0 (fun x hx => ?_) ?_
      · rcases List.mem_append.1 hx with hx | hx
        · rw [hr1 x hx]; decide
        · rw [hr2 x hx]; decide
      · refine rap_append _ _ 1 hr1 hl1 (fun x hx => ?_) ?_
        · rw [hr2 x hx]; decide
        · exact rap_single _ 2 hr2 hl2
    case true =>
      unfold minimax
      simp only [Bool.not_true, reduceIte]
      split_ifs <;> try rfl
      rw [List.append_assoc]
      obtain ⟨hr0, hl0⟩ := rowAB_events
        (fun b' a' b'' => minimax f b' (d + 1) false a' b'') true t 0 (EScore.negInf, a, b)
      obtain ⟨hr1, hl1⟩ := rowAB_events
        (fun b' a' b'' => minimax f b' (d + 1) false a' b'') true t 1 _
      obtain ⟨hr2, hl2⟩ := rowAB_events
        (fun b' a' b'' => minimax f b' (d + 1) false a' b'') true t 2 _
      refine rap_append _ _ 0 hr0 hl0 (fun x hx => ?_) ?_
      · rcases List.mem_append.1 hx with hx | hx
        · rw [hr1 x hx]; decide
        · rw [hr2 x hx]; decide
      · refine rap_append _ _ 1 hr1 hl1 (fun x hx => ?_) ?_
        · rw [hr2 x hx]; decide
        · exact rap_single _ 2 hr2 hl2

/-- C4 (counterexample to the claim as stated): on board `bC4` with
`is_maximizing = true`, `alpha = -inf`, `beta = 0`, the first tried cell
`(0,0)` triggers the pruning condition, yet cell `(2,2)` — a later Empty
cell of the node's row-major enumeration — is still tried afterwards:
Python's `break` exits only the inner column loop. -/
theorem c4_counterexample :
    (minimax 9 bC4 0 true .negInf (.fin 0)).2.2 =
      [.placed 0 0, .pruned 0 0, .placed 2 2, .pruned 2 2] ∧
    noPlacedAfterPruned ((minimax 9 bC4 0 true .negInf (.fin 0)).2.2) = false := by
  constructor <;> decide

end TicTacToe
